import Mathlib

/-
Verification of the radiation-pattern kernel
(src/radiation_pattern/radiation_pattern_lib.c) against its
natural-language specification.

The C code is shallowly embedded: `uint64_t`/`uint32_t` arithmetic is
modelled by natural numbers reduced mod 2^64 / 2^32, `double` values by
real numbers (the uniform draws, which only ever hold exact 32-bit
ratios, are carried as rationals so that the rejection test of the
Box-Muller loop stays decidable), C arrays by functions from ℕ, the
in-place output buffer by an explicit before/after function, `malloc`
success by a boolean oracle, and the unbounded Box-Muller rejection loop
by a fuel parameter (`none` = fuel exhausted, an artefact that never
occurs at the concrete states evaluated below).
-/

open Real

namespace RadiationPattern

/-- Modulus of `uint64_t` arithmetic. -/
def U64 : ℕ := 18446744073709551616

/-- Modulus of `uint32_t` arithmetic. -/
def U32 : ℕ := 4294967296

/-- The C constant `UINT32_MAX`. -/
def UINT32_MAX : ℕ := 4294967295

/-- The PCG generator state struct: `uint64_t state; uint64_t inc;`. -/
structure pcg32_random_t where
  state : ℕ
  inc : ℕ
deriving DecidableEq

/-- The file-scope initializer `rng = { 0x853c49e6748fea9b, 0xda3e39cb94b95bdb }`. -/
def rng_init : pcg32_random_t := ⟨0x853c49e6748fea9b, 0xda3e39cb94b95bdb⟩

/-- One step of `pcg32_random`: returns the 32-bit output and the new state.
`oldstate >> 59` is below 32 whenever the state is a valid `uint64_t`, and
`(-rot) & 31` on `uint32_t` equals `(32 - rot % 32) % 32`. -/
def pcg32_random (r : pcg32_random_t) : ℕ × pcg32_random_t :=
  let oldstate := r.state
  let newstate := (oldstate * 6364136223846793005 + r.inc) % U64
  let xorshifted := (((oldstate >>> 18) ^^^ oldstate) >>> 27) % U32
  let rot := (oldstate >>> 59) % U32
  (((xorshifted >>> rot) ||| ((xorshifted <<< ((32 - rot % 32) % 32)) % U32)),
    ⟨newstate, r.inc⟩)

/-- Full generator state visible to `randn`: the PCG struct plus the
`static bool has_spare; static double spare;` Box-Muller cache. -/
structure RNGState where
  pcg : pcg32_random_t
  has_spare : Bool
  spare : ℝ

/-- The C `seed_rng`: stores the seed into `state`, `(seed << 1) | 1` into
`inc`, and advances the generator once, discarding the output.  The
Box-Muller cache is not touched. -/
def seed_rng (seed : ℕ) (st : RNGState) : RNGState :=
  let p : pcg32_random_t := ⟨seed % U64, ((seed <<< 1) % U64) ||| 1⟩
  ⟨(pcg32_random p).2, st.has_spare, st.spare⟩

/-- The `do { u1 = ...; u2 = ...; } while (u1 <= 1e-7)` rejection loop of
`randn`, with fuel.  Returns the accepted pair `(u1, u2)` as exact
rationals together with the advanced PCG state.  `mkRat out UINT32_MAX` is
the exact value of the C expression `(double)pcg32_random() / UINT32_MAX`,
and `mkRat 1 10000000` the exact value of the literal `1e-7`. -/
def randnAux : ℕ → pcg32_random_t → Option (ℚ × ℚ × pcg32_random_t)
  | 0, _ => none
  | fuel + 1, p =>
    let r1 := pcg32_random p
    let r2 := pcg32_random r1.2
    let u1 : ℚ := mkRat r1.1 UINT32_MAX
    let u2 : ℚ := mkRat r2.1 UINT32_MAX
    if u1 ≤ mkRat 1 10000000 then randnAux fuel r2.2 else some (u1, u2, r2.2)

/-- The C `randn`: return the cached spare if present, otherwise run the
Box-Muller transform on an accepted uniform pair and cache the second
deviate. -/
noncomputable def randn (fuel : ℕ) (mean std_dev : ℝ) (st : RNGState) :
    Option (ℝ × RNGState) :=
  if st.has_spare then
    some (mean + std_dev * st.spare, ⟨st.pcg, false, st.spare⟩)
  else
    match randnAux fuel st.pcg with
    | none => none
    | some (u1, u2, p) =>
      let r := Real.sqrt (-2 * Real.log (u1 : ℝ))
      let theta := 2 * π * (u2 : ℝ)
      some (mean + std_dev * (r * Real.cos theta), ⟨p, true, r * Real.sin theta⟩)

/-- Drawing `k` consecutive values from `randn`. -/
noncomputable def randnSeq (fuel : ℕ) (mean std_dev : ℝ) :
    ℕ → RNGState → Option (List ℝ × RNGState)
  | 0, st => some ([], st)
  | k + 1, st =>
    match randn fuel mean std_dev st with
    | none => none
    | some (z, st1) =>
      match randnSeq fuel mean std_dev k st1 with
      | none => none
      | some (zs, st2) => some (z :: zs, st2)

/-- The first loop of `calculate_pattern`: fills `total_phases[i] =
(phase_weights[i] + phase_error) * M_PI / 180.0` for `i < n`, where the
error is a fresh `randn(0, phase_error_std)` draw when
`phase_error_std > 0` and `0` otherwise. -/
noncomputable def drawPhases (fuel : ℕ) (phase_error_std : ℝ)
    (phase_weights : ℕ → ℝ) : ℕ → RNGState → Option ((ℕ → ℝ) × RNGState)
  | 0, st => some (fun _ => 0, st)
  | n + 1, st =>
    match drawPhases fuel phase_error_std phase_weights n st with
    | none => none
    | some (tp, st1) =>
      match (if phase_error_std > 0 then randn fuel 0 phase_error_std st1
             else some (0, st1)) with
      | none => none
      | some (e, st2) =>
        some (Function.update tp n ((phase_weights n + e) * π / 180), st2)

/-- The C `calculate_pattern`.  `alloc_ok` is the `malloc` oracle (`false`
models an allocation failure, where the C function returns `-1` before
touching the output buffer).  `pattern_out` is the output buffer before
the call; the returned function is the buffer after the call, so entries
the C code never writes keep their old value. -/
noncomputable def calculate_pattern (fuel : ℕ) (n_elements : ℤ)
    (spacing_wavelength steering_angle : ℝ)
    (amplitude_weights phase_weights : ℕ → ℝ) (phase_error_std : ℝ)
    (theta_deg : ℕ → ℝ) (n_theta : ℤ) (alloc_ok : Bool)
    (pattern_out : ℕ → ℂ) (st : RNGState) :
    Option (ℤ × (ℕ → ℂ) × RNGState) :=
  if alloc_ok = false then some (-1, pattern_out, st)
  else
    match drawPhases fuel phase_error_std phase_weights n_elements.toNat st with
    | none => none
    | some (total_phases, st1) =>
      let k : ℝ := 2 * π
      let d := spacing_wavelength
      let sin_steering := Real.sin (steering_angle * π / 180)
      let body : ℕ → ℂ := fun t =>
        let sin_theta := Real.sin (theta_deg t * π / 180)
        ∑ n ∈ Finset.range n_elements.toNat,
          ((amplitude_weights n : ℂ) *
            ((Real.cos (k * ((n : ℝ) * d) * (sin_theta - sin_steering) + total_phases n) : ℂ)
              + Complex.I *
                (Real.sin (k * ((n : ℝ) * d) * (sin_theta - sin_steering) + total_phases n) : ℂ)))
      some (0, fun t => if t < n_theta.toNat then body t else pattern_out t, st1)

/-- The noise loop of `add_awgn`: `signal[i] += noise_std * (randn(0,1) +
I*randn(0,1))` for `i < n`, threading the generator state. -/
noncomputable def addNoiseLoop (fuel : ℕ) (noise_std : ℝ) :
    ℕ → (ℕ → ℂ) → RNGState → Option ((ℕ → ℂ) × RNGState)
  | 0, signal, st => some (signal, st)
  | i + 1, signal, st =>
    match addNoiseLoop fuel noise_std i signal st with
    | none => none
    | some (sig1, st1) =>
      match randn fuel 0 1 st1 with
      | none => none
      | some (z1, st2) =>
        match randn fuel 0 1 st2 with
        | none => none
        | some (z2, st3) =>
          some (Function.update sig1 i
            (sig1 i + (noise_std : ℂ) * ((z1 : ℂ) + Complex.I * (z2 : ℂ))), st3)

/-- The C `add_awgn`: mean power, SNR conversion, per-sample complex noise.
Note the C code performs no validation of `n_samples` and always returns
`0`; real division by zero is total in this model where the C double
computation would produce a NaN. -/
noncomputable def add_awgn (fuel : ℕ) (signal : ℕ → ℂ) (n_samples : ℤ)
    (snr_db : ℝ) (st : RNGState) : Option (ℤ × (ℕ → ℂ) × RNGState) :=
  let signal_power :=
    (∑ i ∈ Finset.range n_samples.toNat,
      Complex.abs (signal i) * Complex.abs (signal i)) / (n_samples : ℝ)
  let snr_linear : ℝ := (10 : ℝ) ^ (snr_db / 10)
  let noise_power := signal_power / snr_linear
  let noise_std := Real.sqrt (noise_power / 2)
  match addNoiseLoop fuel noise_std n_samples.toNat signal st with
  | none => none
  | some (sig, st1) => some (0, sig, st1)

/-- Shared concrete generator state: the C file-scope initializer together
with an empty Box-Muller cache. -/
noncomputable def st₀ : RNGState := ⟨rng_init, false, 0⟩

/-- A concrete output buffer holding `5` everywhere, used by witnesses. -/
noncomputable def buf5 : ℕ → ℂ := fun _ => 5

/-- States of the PCG struct reachable from the initializer by any number of
`pcg32_random` advances and `seed_rng` calls. -/
inductive Reachable : pcg32_random_t → Prop where
  | init : Reachable rng_init
  | step (p : pcg32_random_t) : Reachable p → Reachable (pcg32_random p).2
  | reseed (p : pcg32_random_t) (b : Bool) (sp : ℝ) (s : ℕ) :
      Reachable p → Reachable (seed_rng s ⟨p, b, sp⟩).pcg

lemma two_mul_lor_one (k : ℕ) : 2 * k ||| 1 = 2 * k + 1 := by
  apply Nat.eq_of_testBit_eq
  intro i
  cases i with
  | zero =>
    rw [Nat.testBit_lor]
    simp [Nat.testBit_zero, Nat.mul_add_mod, Nat.add_mod, Nat.mul_mod_right]
  | succ j =>
    rw [Nat.testBit_lor, Nat.testBit_succ, Nat.testBit_succ, Nat.testBit_succ]
    have h1 : 2 * k / 2 = k := by omega
    have h2 : (2 * k + 1) / 2 = k := by omega
    have h3 : 1 / 2 = 0 := by omega
    rw [h1, h2, h3, Nat.zero_testBit, Bool.or_false]

lemma shiftLeft_one_lor_one (s : ℕ) :
    ((s <<< 1) % U64) ||| 1 = (2 * s + 1) % U64 := by
  have h : (s <<< 1) % U64 = 2 * (s % 9223372036854775808) := by
    rw [Nat.shiftLeft_eq]
    simp only [U64]
    omega
  rw [h, two_mul_lor_one]
  simp only [U64]
  omega

/-- C7: for every 64-bit unsigned seed `s`, `seed_rng s` stores `s` into the
generator state and `(s << 1) | 1 = 2*s + 1 (mod 2^64)` into the increment,
and then advances the generator exactly once (one `pcg32_random` step whose
output is discarded) before any caller-visible draw; the Box-Muller cache is
untouched. -/
theorem seed_rng_sets_and_advances_once (s : ℕ) (st : RNGState) (hs : s < U64) :
    seed_rng s st =
      ⟨(pcg32_random ⟨s, (2 * s + 1) % U64⟩).2, st.has_spare, st.spare⟩ := by
  have hp : (⟨s % U64, ((s <<< 1) % U64) ||| 1⟩ : pcg32_random_t) =
      ⟨s, (2 * s + 1) % U64⟩ := by
    rw [Nat.mod_eq_of_lt hs, shiftLeft_one_lor_one]
  simp only [seed_rng, hp]

/-- Witness for C7 at the concrete seed 5. -/
theorem seed_rng_sets_and_advances_once_witness :
    seed_rng 5 st₀ =
      ⟨(pcg32_random ⟨5, (2 * 5 + 1) % U64⟩).2, st₀.has_spare, st₀.spare⟩ :=
  seed_rng_sets_and_advances_once 5 st₀ (by norm_num [U64])

/-- C10: the PCG increment is odd in the initial state and stays odd under
`pcg32_random` (which never writes `inc`) and `seed_rng` (which stores
`(seed << 1) | 1`, odd for every seed): oddness of `inc` is an invariant of
every reachable generator state. -/
theorem pcg_inc_odd (p : pcg32_random_t) (h : Reachable p) : p.inc % 2 = 1 := by
  induction h with
  | init => decide
  | step q _ ih => simpa [pcg32_random] using ih
  | reseed q b sp s _ _ =>
    show (((s <<< 1) % U64) ||| 1) % 2 = 1
    rw [shiftLeft_one_lor_one]
    simp only [U64]
    omega

/-- Witness for C10 at the initial state. -/
theorem pcg_inc_odd_witness : rng_init.inc % 2 = 1 :=
  pcg_inc_odd rng_init Reachable.init

/-- C9: whenever the Box-Muller rejection loop of `randn` accepts a pair, the
first uniform satisfies `u1 > 1e-7`; hence the argument of `log` is strictly
positive and the logarithm singularity is unreachable. -/
theorem randn_log_argument_positive (fuel : ℕ) (p p2 : pcg32_random_t)
    (u1 u2 : ℚ) (h : randnAux fuel p = some (u1, u2, p2)) :
    1 / 10000000 < u1 ∧ (0 : ℝ) < (u1 : ℝ) := by
  induction fuel generalizing p with
  | zero => simp [randnAux] at h
  | succ n ih =>
    rw [randnAux] at h
    split at h
    · exact ih _ h
    · next hc =>
      simp only [Option.some.injEq, Prod.mk.injEq] at h
      obtain ⟨h1, _, _⟩ := h
      subst h1
      rw [not_le, show mkRat 1 10000000 = (1 / 10000000 : ℚ) by norm_num [Rat.mkRat_eq_div]] at hc
      refine ⟨hc, ?_⟩
      have hq : (0 : ℚ) < mkRat ((pcg32_random p).1 : ℤ) UINT32_MAX :=
        lt_trans (by norm_num) hc
      exact_mod_cast hq

/-- Witness for C9: the first pair drawn from the initial generator state is
accepted, with `u1 = 355248013 / 4294967295`. -/
theorem randn_log_argument_positive_witness :
    1 / 10000000 < mkRat 355248013 4294967295 ∧
      (0 : ℝ) < ((mkRat 355248013 4294967295 : ℚ) : ℝ) :=
  randn_log_argument_positive 1 rng_init
    ⟨13821270098544127085, 0xda3e39cb94b95bdb⟩
    (mkRat 355248013 4294967295) (mkRat 41705475 4294967295) (by decide)

lemma drawPhases_nonpos (fuel : ℕ) (std : ℝ) (pw : ℕ → ℝ) (hstd : std ≤ 0) :
    ∀ (n : ℕ) (st : RNGState),
      drawPhases fuel std pw n st =
        some (fun i => if i < n then pw i * π / 180 else 0, st) := by
  intro n
  induction n with
  | zero =>
    intro st
    simp only [drawPhases, Option.some.injEq, Prod.mk.injEq]
    refine ⟨?_, trivial⟩
    funext i
    simp
  | succ m ih =>
    intro st
    rw [drawPhases]
    simp only [ih st, if_neg (not_lt.mpr hstd)]
    simp only [Option.some.injEq, Prod.mk.injEq]
    refine ⟨?_, trivial⟩
    funext i
    by_cases hi : i = m
    · subst hi
      rw [Function.update_same, if_pos (Nat.lt_succ_self _)]
      ring
    · rw [Function.update_noteq hi]
      by_cases hlt : i < m
      · rw [if_pos hlt, if_pos (Nat.lt_succ_of_lt hlt)]
      · rw [if_neg hlt, if_neg (by omega)]

lemma calculate_pattern_eval (fuel : ℕ) (N : ℤ) (d steer : ℝ)
    (amps pw : ℕ → ℝ) (std : ℝ) (θ : ℕ → ℝ) (T : ℤ) (init : ℕ → ℂ)
    (st : RNGState) (hstd : std ≤ 0) :
    calculate_pattern fuel N d steer amps pw std θ T true init st =
      some (0, fun t => if t < T.toNat then
          (∑ n ∈ Finset.range N.toNat, ((amps n : ℂ) *
            ((Real.cos (2 * π * ((n : ℝ) * d) *
                (Real.sin (θ t * π / 180) - Real.sin (steer * π / 180))
                + pw n * π / 180) : ℂ)
              + Complex.I *
                (Real.sin (2 * π * ((n : ℝ) * d) *
                  (Real.sin (θ t * π / 180) - Real.sin (steer * π / 180))
                  + pw n * π / 180) : ℂ))))
        else init t, st) := by
  rw [calculate_pattern, if_neg (by simp)]
  simp only [drawPhases_nonpos fuel std pw hstd]
  simp only [Option.some.injEq, Prod.mk.injEq, true_and, and_true]
  funext t
  by_cases ht : t < T.toNat
  · rw [if_pos ht, if_pos ht]
    refine Finset.sum_congr rfl ?_
    intro n hn
    rw [Finset.mem_range] at hn
    rw [if_pos hn]
  · rw [if_neg ht, if_neg ht]

/-- C6: every error of `calculate_pattern` is detected before any entry of
the output buffer is written.  When allocation of the scratch storage fails
the function returns the error status `-1` (the C library's only error
return, which the spec names ResourceExhausted) with the output buffer
entirely unmodified; and any result whose status is nonzero has status `-1`
and an unmodified output buffer. -/
theorem calculate_pattern_error_before_output (fuel : ℕ) (N : ℤ)
    (d steer std : ℝ) (amps pw θ : ℕ → ℝ) (T : ℤ) (init : ℕ → ℂ)
    (st : RNGState) :
    calculate_pattern fuel N d steer amps pw std θ T false init st =
        some (-1, init, st)
    ∧ ∀ (alloc_ok : Bool) (res : ℤ × (ℕ → ℂ) × RNGState),
        calculate_pattern fuel N d steer amps pw std θ T alloc_ok init st =
            some res →
        res.1 ≠ 0 → res.1 = -1 ∧ res.2.1 = init := by
  constructor
  · rfl
  · intro a res h hne
    cases a with
    | false =>
      rw [calculate_pattern, if_pos rfl] at h
      simp only [Option.some.injEq] at h
      rw [← h]
      exact ⟨rfl, rfl⟩
    | true =>
      rw [calculate_pattern, if_neg (by simp)] at h
      rcases hd : drawPhases fuel std pw N.toNat st with _ | pr
      · rw [hd] at h
        simp at h
      · rw [hd] at h
        simp only [Option.some.injEq] at h
        have h1 : res.1 = 0 := by rw [← h]
        exact absurd h1 hne

/-- Witness for C6 at a concrete failed allocation. -/
theorem calculate_pattern_error_before_output_witness :
    ((-1 : ℤ), buf5, st₀).1 = -1 ∧ ((-1 : ℤ), buf5, st₀).2.1 = buf5 :=
  (calculate_pattern_error_before_output 0 3 1 0 0 (fun _ => 1) (fun _ => 0)
      (fun _ => 0) 2 buf5 st₀).2 false
    ((-1 : ℤ), buf5, st₀) rfl (by norm_num)

/-- C2 evaluation: the C `calculate_pattern` performs no validation of the
counts.  With `element_count = 0` and `theta_count = 2` it returns status
`0` (success) and overwrites `pattern_out[0]` with the empty sum `0`
(replacing the prior value `37`); with `element_count = 4` and
`theta_count = 0` it likewise returns status `0`.  The claimed
InvalidArgument failure does not exist in the code. -/
theorem calculate_pattern_no_validation :
    Option.map (fun r => (r.1, r.2.1 0))
        (calculate_pattern 0 0 (1/2) 0 (fun _ => 1) (fun _ => 0) 0
          (fun _ => 0) 2 true (fun _ => (37 : ℂ)) st₀) = some (0, 0)
    ∧ Option.map (fun r => (r.1, r.2.1 0))
        (calculate_pattern 0 4 (1/2) 0 (fun _ => 1) (fun _ => 0) 0
          (fun _ => 0) 0 true (fun _ => (37 : ℂ)) st₀) = some (0, 37) := by
  constructor
  · rw [calculate_pattern_eval 0 0 (1/2) 0 (fun _ => 1) (fun _ => 0) 0
      (fun _ => 0) 2 (fun _ => (37 : ℂ)) st₀ le_rfl]
    simp
  · rw [calculate_pattern_eval 0 4 (1/2) 0 (fun _ => 1) (fun _ => 0) 0
      (fun _ => 0) 0 (fun _ => (37 : ℂ)) st₀ le_rfl]
    simp

/-- C3 evaluation: the C `add_awgn` performs no validation of
`sample_count`.  With `n_samples = 0` the mean-power computation divides by
zero (a NaN in the C doubles, the absorbing `0` of real division here), the
noise loop is empty, and the function returns status `0` (success) with the
signal untouched — it does not fail with InvalidArgument. -/
theorem add_awgn_zero_samples :
    add_awgn 1 (fun _ => (1 : ℂ)) 0 10 st₀ =
      some (0, fun _ => (1 : ℂ), st₀) := rfl

/-- C1: with `phase_error_std_deg = 0` (every perturbation zero) and positive
`element_count` and `theta_count`, every output entry `pattern_out[t]` equals
`Σ_n amplitude_weights[n] · (cos(phase) + i·sin(phase))` with
`phase = 2π·n·d·(sin θ_t − sin steering) + φ_n`, `φ_n = phase_weights[n]·π/180`,
all angles converted from degrees to radians before taking sines. -/
theorem calculate_pattern_superposition (fuel : ℕ) (N T : ℤ)
    (d steer std : ℝ) (amps pw θ : ℕ → ℝ) (init : ℕ → ℂ) (st : RNGState)
    (hN : 0 < N) (hT : 0 < T) (hstd : std = 0) (t : ℕ) (ht : t < T.toNat) :
    Option.map (fun r => r.2.1 t)
        (calculate_pattern fuel N d steer amps pw std θ T true init st) =
      some (∑ n ∈ Finset.range N.toNat, ((amps n : ℂ) *
        ((Real.cos (2 * π * (n : ℝ) * d *
            (Real.sin (θ t * π / 180) - Real.sin (steer * π / 180))
            + pw n * π / 180) : ℂ)
          + Complex.I *
            (Real.sin (2 * π * (n : ℝ) * d *
              (Real.sin (θ t * π / 180) - Real.sin (steer * π / 180))
              + pw n * π / 180) : ℂ)))) := by
  subst hstd
  rw [calculate_pattern_eval fuel N d steer amps pw 0 θ T init st le_rfl]
  simp only [Option.map_some', Option.some.injEq]
  rw [if_pos ht]
  refine Finset.sum_congr rfl ?_
  intro n _
  have harg : ∀ x : ℝ, 2 * π * ((n : ℝ) * d) * x + pw n * π / 180 =
      2 * π * (n : ℝ) * d * x + pw n * π / 180 := fun x => by ring
  rw [harg]

/-- Witness for C1 at a one-element, one-angle instance. -/
theorem calculate_pattern_superposition_witness :
    Option.map (fun r => r.2.1 0)
        (calculate_pattern 0 1 (1/2) 0 (fun _ => 1) (fun _ => 0) 0
          (fun _ => 0) 1 true buf5 st₀) =
      some (∑ n ∈ Finset.range (1 : ℤ).toNat, (((1 : ℝ) : ℂ) *
        ((Real.cos (2 * π * (n : ℝ) * (1/2) *
            (Real.sin ((0 : ℝ) * π / 180) - Real.sin ((0 : ℝ) * π / 180))
            + (0 : ℝ) * π / 180) : ℂ)
          + Complex.I *
            (Real.sin (2 * π * (n : ℝ) * (1/2) *
              (Real.sin ((0 : ℝ) * π / 180) - Real.sin ((0 : ℝ) * π / 180))
              + (0 : ℝ) * π / 180) : ℂ)))) :=
  calculate_pattern_superposition 0 1 1 (1/2) 0 0 (fun _ => 1) (fun _ => 0)
    (fun _ => 0) buf5 st₀ (by norm_num) (by norm_num) rfl 0 (by decide)

/-- C5: at broadside (steering 0, observation angle 0) with uniform unit
amplitudes, zero phase weights and no phase error, the pattern magnitude
equals `element_count`; in particular for 4 elements at spacing `1/2` the
value has magnitude `4` and phase `0`. -/
theorem pattern_broadside_magnitude (fuel : ℕ) (N T : ℤ) (d : ℝ)
    (init : ℕ → ℂ) (st : RNGState) (hN : 0 < N) (hT : 0 < T) :
    Option.map (fun r => Complex.abs (r.2.1 0))
        (calculate_pattern fuel N d 0 (fun _ => 1) (fun _ => 0) 0
          (fun _ => 0) T true init st) = some ((N.toNat : ℝ))
    ∧ Option.map (fun r => (Complex.abs (r.2.1 0), Complex.arg (r.2.1 0)))
        (calculate_pattern fuel 4 (1/2) 0 (fun _ => 1) (fun _ => 0) 0
          (fun _ => 0) 1 true init st) = some (4, 0) := by
  have key : ∀ (Nv Tv : ℤ) (dv : ℝ), 0 < Tv → ∃ out : ℕ → ℂ,
      calculate_pattern fuel Nv dv 0 (fun _ => 1) (fun _ => 0) 0
          (fun _ => 0) Tv true init st = some (0, out, st) ∧
        out 0 = ((Nv.toNat : ℕ) : ℂ) := by
    intro Nv Tv dv hTv
    refine ⟨_, calculate_pattern_eval fuel Nv dv 0 (fun _ => 1) (fun _ => 0) 0
      (fun _ => 0) Tv init st le_rfl, ?_⟩
    rw [if_pos (by omega : 0 < Tv.toNat)]
    simp [Finset.sum_const, Finset.card_range]
  constructor
  · obtain ⟨out, hout, hval⟩ := key N T d hT
    rw [hout]
    simp only [Option.map_some', Option.some.injEq, hval]
    exact Complex.abs_natCast _
  · obtain ⟨out, hout, hval⟩ := key 4 1 (1/2) (by norm_num)
    rw [hout]
    simp only [Option.map_some', Option.some.injEq, hval, Prod.mk.injEq]
    constructor
    · rw [Complex.abs_natCast, show (4 : ℤ).toNat = 4 from rfl]
      norm_num
    · exact Complex.natCast_arg

/-- Witness for C5 at a two-element instance. -/
theorem pattern_broadside_magnitude_witness :
    Option.map (fun r => Complex.abs (r.2.1 0))
        (calculate_pattern 0 2 7 0 (fun _ => 1) (fun _ => 0) 0
          (fun _ => 0) 3 true buf5 st₀) = some (((2 : ℤ).toNat : ℝ))
    ∧ Option.map (fun r => (Complex.abs (r.2.1 0), Complex.arg (r.2.1 0)))
        (calculate_pattern 0 4 (1/2) 0 (fun _ => 1) (fun _ => 0) 0
          (fun _ => 0) 1 true buf5 st₀) = some (4, 0) :=
  pattern_broadside_magnitude 0 2 3 7 buf5 st₀ (by norm_num) (by norm_num)

/-- C8 counterexample: with one element of amplitude `1` but phase weight
`90` degrees, the computed pattern value is `i`, not the element's amplitude
weight `1`: the claim that the single-element pattern equals the amplitude
weight regardless of the phase weight is false on the code. -/
theorem single_element_counterexample :
    Option.map (fun r => r.2.1 0)
        (calculate_pattern 0 1 (1/2) 0 (fun _ => 1) (fun _ => 90) 0
          (fun _ => 0) 1 true buf5 st₀) = some Complex.I
    ∧ Complex.I ≠ ((1 : ℝ) : ℂ) := by
  constructor
  · rw [calculate_pattern_eval 0 1 (1/2) 0 (fun _ => 1) (fun _ => 90) 0
      (fun _ => 0) 1 buf5 st₀ le_rfl]
    simp only [Option.map_some', Option.some.injEq]
    rw [if_pos (by decide : (0:ℕ) < (1:ℤ).toNat),
      show (1:ℤ).toNat = 1 from rfl, Finset.sum_range_one]
    have harg : 2 * π * (((0:ℕ) : ℝ) * (1/2)) *
        (Real.sin ((0:ℝ) * π / 180) - Real.sin ((0:ℝ) * π / 180))
        + (90:ℝ) * π / 180 = π / 2 := by
      push_cast
      ring
    rw [harg, Real.cos_pi_div_two, Real.sin_pi_div_two]
    simp
  · simp [Complex.ext_iff]

/-- C8 amended: with a single element and no phase error the pattern is
angle-invariant, and it equals the element's amplitude weight when the
element's phase weight is zero (in general it is the amplitude rotated by
the phase weight). -/
theorem single_element_angle_invariant (fuel : ℕ) (T : ℤ) (d steer : ℝ)
    (amps pw θ : ℕ → ℝ) (init : ℕ → ℂ) (st : RNGState)
    (t1 t2 : ℕ) (h1 : t1 < T.toNat) (h2 : t2 < T.toNat) :
    Option.map (fun r => r.2.1 t1)
        (calculate_pattern fuel 1 d steer amps pw 0 θ T true init st) =
      Option.map (fun r => r.2.1 t2)
        (calculate_pattern fuel 1 d steer amps pw 0 θ T true init st)
    ∧ (pw 0 = 0 →
        Option.map (fun r => r.2.1 t1)
            (calculate_pattern fuel 1 d steer amps pw 0 θ T true init st) =
          some ((amps 0 : ℂ))) := by
  rw [calculate_pattern_eval fuel 1 d steer amps pw 0 θ T init st le_rfl]
  simp only [Option.map_some', Option.some.injEq]
  have h0 : ∀ x : ℝ, 2 * π * (((0:ℕ) : ℝ) * d) * x + pw 0 * π / 180 =
      pw 0 * π / 180 := fun x => by push_cast; ring
  constructor
  · rw [if_pos h1, if_pos h2, show (1:ℤ).toNat = 1 from rfl,
      Finset.sum_range_one, Finset.sum_range_one, h0, h0]
  · intro hpw
    rw [if_pos h1, show (1:ℤ).toNat = 1 from rfl, Finset.sum_range_one, h0,
      hpw]
    norm_num

/-- Witness for the amended C8 at a concrete two-angle instance. -/
theorem single_element_angle_invariant_witness :
    Option.map (fun r => r.2.1 0)
        (calculate_pattern 0 1 (1/2) 0 (fun _ => 3) (fun _ => 0) 0
          (fun t => 30 * (t : ℝ)) 2 true buf5 st₀) =
      Option.map (fun r => r.2.1 1)
        (calculate_pattern 0 1 (1/2) 0 (fun _ => 3) (fun _ => 0) 0
          (fun t => 30 * (t : ℝ)) 2 true buf5 st₀)
    ∧ ((0 : ℝ) = 0 →
        Option.map (fun r => r.2.1 0)
            (calculate_pattern 0 1 (1/2) 0 (fun _ => 3) (fun _ => 0) 0
              (fun t => 30 * (t : ℝ)) 2 true buf5 st₀) =
          some ((3 : ℝ) : ℂ)) :=
  single_element_angle_invariant 0 2 (1/2) 0 (fun _ => 3) (fun _ => 0)
    (fun t => 30 * (t : ℝ)) buf5 st₀ 0 1 (by decide) (by decide)

lemma cos_two_pi_frac_ne_zero (m : ℕ) :
    Real.cos (2 * π * ((m : ℝ) / 4294967295)) ≠ 0 := by
  intro h
  rw [Real.cos_eq_zero_iff] at h
  obtain ⟨k, hk⟩ := h
  have h2 : π * (2 * ((m : ℝ) / 4294967295)) = π * ((2 * (k : ℝ) + 1) / 2) := by
    linear_combination hk
  have h3 := mul_left_cancel₀ Real.pi_ne_zero h2
  have h4 : (4 : ℝ) * m = (2 * (k : ℝ) + 1) * 4294967295 := by
    linear_combination (2 * (4294967295 : ℝ)) * h3
  have h5 : (4 * (m : ℤ)) = (2 * k + 1) * 4294967295 := by exact_mod_cast h4
  omega

lemma randnSeq_one (fuel : ℕ) (mean std : ℝ) (st : RNGState) :
    randnSeq fuel mean std 1 st =
      Option.map (fun zr => ([zr.1], zr.2)) (randn fuel mean std st) := by
  rw [show (1 : ℕ) = 0 + 1 from rfl]
  rcases h : randn fuel mean std st with _ | ⟨z, st1⟩ <;>
    simp [randnSeq, h]

/-- C4 counterexample: `seed_rng` does not reset the `static` Box-Muller
spare cache of `randn`.  Reseeding with seed `1` from a prior state with an
empty cache and from one holding a cached spare `0` yields different first
draws (a fresh Box-Muller deviate vs. the stale spare `0`), so the claim
that the post-reseed sequence is independent of the entire prior generator
state (including the cache) is false. -/
theorem seed_rng_cache_counterexample :
    Option.map (fun r => r.1) (randnSeq 1 0 1 1 (seed_rng 1 st₀)) ≠
      Option.map (fun r => r.1)
        (randnSeq 1 0 1 1 (seed_rng 1 ⟨rng_init, true, 0⟩)) := by
  have hseedA : seed_rng 1 st₀ =
      ⟨⟨6364136223846793008, 3⟩, false, 0⟩ := rfl
  have hseedB : seed_rng 1 (⟨rng_init, true, 0⟩ : RNGState) =
      ⟨⟨6364136223846793008, 3⟩, true, 0⟩ := rfl
  have haux : randnAux 1 ⟨6364136223846793008, 3⟩ =
      some (mkRat 3837872008 4294967295, mkRat 3193744052 4294967295,
        ⟨5555489090965909562, 3⟩) := by decide
  have hrandnA : randn 1 0 1 ⟨⟨6364136223846793008, 3⟩, false, 0⟩ =
      (match randnAux 1 ⟨6364136223846793008, 3⟩ with
        | none => none
        | some (u1, u2, p) =>
          some (0 + 1 * (Real.sqrt (-2 * Real.log (u1 : ℝ)) *
              Real.cos (2 * π * (u2 : ℝ))),
            ⟨p, true, Real.sqrt (-2 * Real.log (u1 : ℝ)) *
              Real.sin (2 * π * (u2 : ℝ))⟩)) := rfl
  have hrandnB : randn 1 0 1 ⟨⟨6364136223846793008, 3⟩, true, 0⟩ =
      some (0 + 1 * 0, ⟨⟨6364136223846793008, 3⟩, false, 0⟩) := rfl
  rw [hseedA, hseedB, randnSeq_one, randnSeq_one, hrandnA, haux, hrandnB]
  simp only [Option.map_some', Option.some.injEq, List.cons.injEq, ne_eq,
    zero_add, one_mul, and_true, not_and, List.cons_ne_nil]
  intro h
  have hc1 : ((mkRat 3837872008 4294967295 : ℚ) : ℝ) =
      (3837872008 : ℝ) / 4294967295 := by
    rw [Rat.mkRat_eq_div]
    push_cast
    ring
  have hc2 : ((mkRat 3193744052 4294967295 : ℚ) : ℝ) =
      ((3193744052 : ℕ) : ℝ) / 4294967295 := by
    rw [Rat.mkRat_eq_div]
    push_cast
    ring
  rw [hc1, hc2] at h
  have hsqrt : 0 < Real.sqrt (-2 * Real.log ((3837872008 : ℝ) / 4294967295)) := by
    apply Real.sqrt_pos.mpr
    have hlog : Real.log ((3837872008 : ℝ) / 4294967295) < 0 :=
      Real.log_neg (by norm_num) (by norm_num)
    linarith
  have hcos := cos_two_pi_frac_ne_zero 3193744052
  exact mul_ne_zero (ne_of_gt hsqrt) hcos h

/-- C4 amended: reseeding with the same seed from any two prior states that
agree on the Box-Muller spare cache (`has_spare` flag and `spare` value)
yields identical subsequent `randn` sequences of every length — `seed_rng`
fully determines the PCG part of the state from the seed, but leaves the
cache as it was. -/
theorem randn_reseed_reproducible (fuel k s : ℕ) (mean std : ℝ)
    (st1 st2 : RNGState) (hsp : st1.has_spare = st2.has_spare)
    (hv : st1.spare = st2.spare) :
    randnSeq fuel mean std k (seed_rng s st1) =
      randnSeq fuel mean std k (seed_rng s st2) := by
  have h : seed_rng s st1 = seed_rng s st2 := by
    simp only [seed_rng, hsp, hv]
  rw [h]

/-- Witness for the amended C4: two different prior PCG states with equal
(empty) caches give equal sequences after reseeding with seed 7. -/
theorem randn_reseed_reproducible_witness :
    randnSeq 1 0 1 1 (seed_rng 7 st₀) =
      randnSeq 1 0 1 1 (seed_rng 7 ⟨⟨1, 1⟩, false, 0⟩) :=
  randn_reseed_reproducible 1 1 7 0 1 st₀ ⟨⟨1, 1⟩, false, 0⟩ rfl rfl

end RadiationPattern
